import Mathlib

/-!
Verification development for the hrncoins wallet server (src/server.js).

The server keeps an in-memory `users` Map from account name to an object
holding a numeric `balance` and an optional `infinite` flag, persists every
mutation as a JSON record appended to an operation log (batched through a
write queue), periodically snapshots the whole table and truncates the log,
and on startup reconstructs the table by loading the snapshot and replaying
the log. We shallow-embed the table as an association list with JavaScript
Map semantics (insertion order preserved, set-in-place on existing keys),
balances as mathematical integers, and each server routine as a Lean
function translated from the corresponding JavaScript function.
-/

namespace HrnCoins

/-- An account object as stored in the `users` Map: a balance and the
`infinite` flag (absent in JavaScript means false). -/
structure Account where
  balance : Int
  infinite : Bool
deriving DecidableEq, Repr

/-- The in-memory `users` Map, as an insertion-ordered association list. -/
abbrev Table := List (String × Account)

/-- JavaScript `users.get(k)`: the value at key `k`, if present. -/
def mapGet (m : Table) (k : String) : Option Account :=
  (m.find? (fun p => p.1 == k)).map Prod.snd

/-- JavaScript `users.has(k)`. -/
def mapHas (m : Table) (k : String) : Bool :=
  (mapGet m k).isSome

/-- JavaScript `users.set(k, v)`: overwrite in place when the key exists,
otherwise append at the end (Map preserves insertion order). -/
def mapSet (m : Table) (k : String) (v : Account) : Table :=
  if mapHas m k then m.map (fun p => if p.1 == k then (k, v) else p)
  else m ++ [(k, v)]

/-- JavaScript `users.delete(k)`. -/
def mapDelete (m : Table) (k : String) : Table :=
  m.filter (fun p => p.1 != k)

/-- In-place mutation of the object stored at key `k` (JavaScript field
assignment through the reference obtained from `users.get(k)`). -/
def updAt (k : String) (f : Account → Account) (m : Table) : Table :=
  m.map (fun p => if p.1 == k then (p.1, f p.2) else p)

/-- In-place `u.balance += d` on the object stored at key `k`
(as in `applyOp` for `inc` records and in the deposit and transfer routes). -/
def bump (m : Table) (k : String) (d : Int) : Table :=
  updAt k (fun a => Account.mk (a.balance + d) a.infinite) m

/-- In-place `u.balance = b` on the object stored at key `k`
(as in `applyOp` for `set` records). -/
def setBal (m : Table) (k : String) (b : Int) : Table :=
  updAt k (fun a => Account.mk b a.infinite) m

/-- In-place `u.infinite = true` on the object stored at key `k`
(as in `loadData` forcing the Bank flag). -/
def setInf (m : Table) (k : String) : Table :=
  updAt k (fun a => Account.mk a.balance true) m

/-- An operation-log record, one per line of ops.log:
`type` is one of create, delete, inc, set (server.js applyOp). A create
record without an `infinite` field is modelled with the flag false. -/
inductive Rec where
  | create (user : String) (infinite : Bool)
  | delete (user : String)
  | inc (user : String) (amount : Int)
  | set (user : String) (balance : Int)
deriving DecidableEq, Repr

/-- server.js `applyOp(op, persist=false)`: the pure in-memory effect of one
log record, exactly as replayed during recovery.
create: only when the user is absent; delete: only when the user name is
truthy, present, and not "Bank"; inc: skipped when the account is absent or
infinite; set: skipped when absent, otherwise overwrites the balance. -/
def applyOp (m : Table) : Rec → Table
  | Rec.create u inf => if mapHas m u then m else mapSet m u (Account.mk 0 inf)
  | Rec.delete u => if (u != "") && mapHas m u && (u != "Bank") then mapDelete m u else m
  | Rec.inc u amt =>
    match mapGet m u with
    | none => m
    | some a => if a.infinite then m else bump m u amt
  | Rec.set u b =>
    match mapGet m u with
    | none => m
    | some _ => setBal m u b

/-- Outcome of an HTTP route, by the response the handler sends. -/
inductive Resp where
  | ok
  | userRequired
  | userExists
  | invalidParams
  | notFound
  | insufficientFunds
  | cannotDeleteBank
  | adminCodeRequired
  | invalidAdminCode
deriving DecidableEq, Repr

/-- Result of serving one request: the new table, the records handed to
`enqueueWrite` in order, and the response kind. -/
structure Step where
  table : Table
  recs : List Rec
  resp : Resp
deriving DecidableEq, Repr

/-- A ledger request as parsed from the query string; a missing query
parameter is modelled as the empty string (falsy in JavaScript). -/
inductive LedgerOp where
  | createWallet (user : String)
  | deposit (user : String) (amount : Int)
  | transfer (src dst : String) (amount : Int)
  | deleteAccount (user : String)
  | deleteAll (code : String)
deriving DecidableEq, Repr

def ADMIN_CODE : String := "change_me_admin_code"

/-- The route handlers of server.js (createWallet, deposit, transfer,
deleteAccount, deleteAll), translated one branch at a time. Note that in
the transfer route the sender debit is guarded by `!s.infinite` but the
receiver credit `r.balance += amt` is unconditional. -/
def serve (m : Table) : LedgerOp → Step
  | LedgerOp.createWallet u =>
    if u = "" then ⟨m, [], Resp.userRequired⟩
    else if mapHas m u then ⟨m, [], Resp.userExists⟩
    else ⟨mapSet m u (Account.mk 0 false), [Rec.create u false], Resp.ok⟩
  | LedgerOp.deposit u amt =>
    if u = "" ∨ amt ≤ 0 then ⟨m, [], Resp.invalidParams⟩
    else
      match mapGet m u with
      | none => ⟨m, [], Resp.notFound⟩
      | some a => ⟨if a.infinite then m else bump m u amt, [Rec.inc u amt], Resp.ok⟩
  | LedgerOp.transfer f t amt =>
    if f = "" ∨ t = "" ∨ amt ≤ 0 then ⟨m, [], Resp.invalidParams⟩
    else
      match mapGet m f, mapGet m t with
      | some s, some _ =>
        if s.infinite = false ∧ s.balance < amt then ⟨m, [], Resp.insufficientFunds⟩
        else
          ⟨bump (if s.infinite then m else bump m f (-amt)) t amt,
           [Rec.inc f (-amt), Rec.inc t amt], Resp.ok⟩
      | _, _ => ⟨m, [], Resp.notFound⟩
  | LedgerOp.deleteAccount u =>
    if u = "" then ⟨m, [], Resp.userRequired⟩
    else if u = "Bank" then ⟨m, [], Resp.cannotDeleteBank⟩
    else if mapHas m u then ⟨mapDelete m u, [Rec.delete u], Resp.ok⟩
    else ⟨m, [], Resp.notFound⟩
  | LedgerOp.deleteAll code =>
    if code = "" then ⟨m, [], Resp.adminCodeRequired⟩
    else if code ≠ ADMIN_CODE then ⟨m, [], Resp.invalidAdminCode⟩
    else ⟨m.filter (fun p => p.1 == "Bank"),
          ((m.map Prod.fst).filter (fun k => k ≠ "Bank")).map Rec.delete, Resp.ok⟩

/-- Run a list of requests, collecting every record handed to the write
queue, in order. -/
def runOps (m : Table) : List LedgerOp → Table × List Rec
  | [] => (m, [])
  | op :: ops =>
    let s := serve m op
    let r := runOps s.table ops
    (r.1, s.recs ++ r.2)

/-- Replay a list of log records via `applyOp` without re-appending
(the loadData replay loop). -/
def replay (m : Table) (recs : List Rec) : Table := recs.foldl applyOp m

/-- loadData loading a snapshot: `users.set` for each stored entry,
starting from an empty Map. -/
def loadSnap (snap : Table) : Table := snap.foldl (fun m e => mapSet m e.1 e.2) []

/-- loadData ensuring the Bank account: if absent, create it with
`infinite = true` and enqueue the corresponding create record; if present,
force `infinite = true` in place. Returns the table and the enqueued
records. -/
def ensureBankP (m : Table) : Table × List Rec :=
  if mapHas m "Bank" then (setInf m "Bank", [])
  else (mapSet m "Bank" (Account.mk 0 true), [Rec.create "Bank" true])

/-- The recovery procedure of loadData: load the snapshot, replay the log,
ensure the Bank account. -/
def recover (snap : Table) (recs : List Rec) : Table :=
  (ensureBankP (replay (loadSnap snap) recs)).1

/-- The records enqueued for persistence by recovery itself. -/
def recoverEnq (snap : Table) (recs : List Rec) : List Rec :=
  (ensureBankP (replay (loadSnap snap) recs)).2

/-- The in-memory table right after a first run of loadData on empty
files: only the Bank account. -/
def initTable : Table := [("Bank", Account.mk 0 true)]

/-- The first record queued for the log on a first run: the Bank creation
enqueued by loadData. -/
def initLog : List Rec := [Rec.create "Bank" true]

/-- server.js getBalance / the balance route payload: null when absent, the
string sentinel "infinite" for an unlimited account, otherwise the number. -/
inductive Jv where
  | num (n : Int)
  | str (s : String)
deriving DecidableEq, Repr

/-- server.js `getBalance(user)`. -/
def getBalance (m : Table) (user : String) : Option Jv :=
  (mapGet m user).map (fun a => if a.infinite then Jv.str "infinite" else Jv.num a.balance)

/-- The value of the `balance` field in the JSON body the GET /balance route
sends (merging the 400 and 404 early returns into none). -/
def balanceRoute (m : Table) (user : String) : Option Jv :=
  if user = "" then none else getBalance m user

/-- The meaningful part of an account: its flag, and its stored balance only
when the account is not unlimited (the spec declares the stored balance of an
unlimited account meaningless). -/
def vview (a : Account) : Account :=
  Account.mk (if a.infinite then 0 else a.balance) a.infinite

/-- Lookup through the meaningful view. -/
def lookV (m : Table) (k : String) : Option Account := (mapGet m k).map vview

/-- Two tables are observationally equal when every lookup agrees on
presence, on the unlimited flag, and on the balance of non-unlimited
accounts. -/
def obsEq (m1 m2 : Table) : Prop := ∀ k, lookV m1 k = lookV m2 k

/-- No non-unlimited account has a negative balance. -/
def nonNeg (m : Table) : Prop :=
  ∀ k a, mapGet m k = some a → a.infinite = false → 0 ≤ a.balance

/-- snapshotToFile serialization: every account is written out with its name,
its balance (0 for an unlimited account) and the flag when set. -/
def snapshotOf (m : Table) : Table :=
  m.map (fun p => (p.1, Account.mk (if p.2.infinite then 0 else p.2.balance) p.2.infinite))

def SNAPSHOT_OPS : Nat := 1000
def BATCH_SIZE : Nat := 20

/-- The persistence pipeline state: the in-memory table, the pending write
batch (`pendingOps`), the operation log file, the committed snapshot file,
and a counter of snapshot-plus-truncate cycles performed. -/
structure Sys where
  users : Table
  pending : List Rec
  log : List Rec
  snapFile : Table
  snaps : Nat
deriving DecidableEq, Repr

/-- snapshotToFile: write the serialized table to the snapshot file and
truncate the log. -/
def snapSys (s : Sys) : Sys :=
  { s with snapFile := snapshotOf s.users, log := [], snaps := s.snaps + 1 }

/-- flushOps in the sequential schedule: splice out the pending batch, append
it to the log, then check `pendingOpsSinceSnapshot()` — which returns the
length of the (now empty) pending buffer — against SNAPSHOT_OPS. -/
def flushSys (s : Sys) : Sys :=
  let s1 : Sys := { s with log := s.log ++ s.pending, pending := [] }
  if SNAPSHOT_OPS ≤ s1.pending.length then snapSys s1 else s1

/-- enqueueWrite: push the record on the pending batch and flush once the
batch reaches BATCH_SIZE. -/
def enqueueWrite (s : Sys) (r : Rec) : Sys :=
  let s1 : Sys := { s with pending := s.pending ++ [r] }
  if BATCH_SIZE ≤ s1.pending.length then flushSys s1 else s1

/-- An event of the pipeline: an HTTP request, a write-queue turn completing
(append of the spliced batch), or a scheduled snapshotToFile firing (the
setImmediate callback scheduleSnapshot registered, which runs outside the
write queue). -/
inductive Evt where
  | request (op : LedgerOp)
  | flushEvt
  | snapEvt
deriving DecidableEq, Repr

/-- One pipeline step. A request mutates the table synchronously and hands
each produced record to enqueueWrite in order. -/
def stepSys (s : Sys) : Evt → Sys
  | Evt.request op =>
    let st := serve s.users op
    st.recs.foldl enqueueWrite { s with users := st.table }
  | Evt.flushEvt => flushSys s
  | Evt.snapEvt => snapSys s

def runSys (s : Sys) (evts : List Evt) : Sys := evts.foldl stepSys s

/-- The pipeline state after a first run: Bank in memory, its create record
already flushed to the log, nothing pending, no snapshot yet. -/
def sys0 : Sys :=
  { users := initTable, pending := [], log := initLog, snapFile := [], snaps := 0 }

/-- The loadData replay loop over the raw lines of ops.log: skip blank
lines, parse each line (JSON.parse, modelled by the `parse` argument), skip
lines whose parse throws, and apply every parsed record via applyOp. -/
def replayLines (parse : String → Option Rec) (m : Table) (lines : List String) : Table :=
  lines.foldl (fun acc line =>
    if line.trim = "" then acc
    else
      match parse line with
      | none => acc
      | some r => applyOp acc r) m

/-- One iteration of the loadData replay loop, also tracking the diagnostic
messages the iteration prints (second component). A blank line is skipped;
a line whose parse throws is swallowed by the catch block, which is empty
in the source, so no branch of the loop body prints anything and the
message component never grows; a parsed record is applied via applyOp. -/
def replayLineStep (parse : String → Option Rec) (acc : Table × List String)
    (line : String) : Table × List String :=
  if line.trim = "" then acc
  else
    match parse line with
    | none => acc
    | some r => (applyOp acc.1 r, acc.2)

/-- The loadData replay loop over the raw lines of ops.log, also collecting
every diagnostic message the loop prints along the way. -/
def replayLinesLogged (parse : String → Option Rec) (m : Table) (lines : List String) :
    Table × List String :=
  lines.foldl (replayLineStep parse) (m, [])

/-- Concrete scenario for the replay-equivalence claim: create Alice,
deposit 100, transfer 50 from Alice to the Bank. -/
def c1ops : List LedgerOp :=
  [LedgerOp.createWallet "Alice", LedgerOp.deposit "Alice" 100,
   LedgerOp.transfer "Alice" "Bank" 50]

/-- Concrete schedule for the snapshot-versus-pending-batch claim: a
deleteAll request schedules a snapshot via setImmediate; before the
callback fires, two further requests are handled (their records joining the
pending batch); then the snapshot runs and truncates the log; then the
write-queue turn appends the pending batch to the (truncated) log. -/
def c2trace : List Evt :=
  [Evt.request (LedgerOp.deleteAll ADMIN_CODE),
   Evt.request (LedgerOp.createWallet "Bob"),
   Evt.request (LedgerOp.deposit "Bob" 100),
   Evt.snapEvt,
   Evt.flushEvt]

/-- n distinct account-creation requests, one per wallet name. -/
def mkCreates (n : Nat) : List LedgerOp :=
  (List.range n).map (fun i => LedgerOp.createWallet ("u" ++ toString i))

/-! Pointwise characterization of the Map operations. -/

theorem mapGet_nil (k : String) : mapGet [] k = none := rfl

theorem mapGet_cons (p : String × Account) (m : Table) (k : String) :
    mapGet (p :: m) k = if p.1 = k then some p.2 else mapGet m k := by
  by_cases h : p.1 = k <;> simp [mapGet, List.find?_cons, h]

theorem mapHas_eq_isSome (m : Table) (k : String) : mapHas m k = (mapGet m k).isSome := rfl

theorem mapGet_updAt (k : String) (f : Account → Account) (m : Table) (j : String) :
    mapGet (updAt k f m) j = if j = k then (mapGet m k).map f else mapGet m j := by
  induction m with
  | nil => simp [updAt, mapGet_nil]
  | cons p m ih =>
    by_cases hpk : p.1 = k
    · have h1 : updAt k f (p :: m) = (p.1, f p.2) :: updAt k f m := by
        simp only [updAt, List.map_cons]
        rw [if_pos (by simp [hpk])]
      rw [h1, mapGet_cons, mapGet_cons, mapGet_cons, ih]
      split_ifs <;> simp_all
    · have h1 : updAt k f (p :: m) = p :: updAt k f m := by
        simp only [updAt, List.map_cons]
        rw [if_neg (by simp [hpk])]
      rw [h1, mapGet_cons, mapGet_cons, mapGet_cons, ih]
      split_ifs <;> simp_all

theorem mapGet_append (m n : Table) (j : String) :
    mapGet (m ++ n) j =
      match mapGet m j with
      | some v => some v
      | none => mapGet n j := by
  induction m with
  | nil => simp [mapGet_nil]
  | cons p m ih =>
    rw [List.cons_append, mapGet_cons, mapGet_cons]
    by_cases h : p.1 = j <;> simp [h, ih]

theorem mapGet_mapSet (m : Table) (k : String) (v : Account) (j : String) :
    mapGet (mapSet m k v) j = if j = k then some v else mapGet m j := by
  unfold mapSet
  by_cases hk : mapHas m k
  · have hfun : (fun p : String × Account => if p.1 == k then (k, v) else p)
        = (fun p : String × Account => if p.1 == k then (p.1, v) else p) := by
      funext p
      by_cases h : p.1 = k <;> simp [h]
    rw [hk, if_pos rfl, hfun]
    have : (m.map fun p : String × Account => if p.1 == k then (p.1, v) else p)
        = updAt k (fun _ => v) m := rfl
    rw [this, mapGet_updAt]
    by_cases hjk : j = k
    · subst hjk
      rcases hg : mapGet m j with _ | a
      · rw [mapHas_eq_isSome, hg] at hk; simp at hk
      · simp [hg]
    · simp [hjk]
  · rw [if_neg (by simpa using hk), mapGet_append]
    by_cases hjk : j = k
    · subst hjk
      have hg : mapGet m j = none := by
        rcases hg : mapGet m j with _ | a
        · rfl
        · rw [mapHas_eq_isSome, hg] at hk; simp at hk
      simp [hg, mapGet_cons]
    · rcases hg : mapGet m j with _ | a
      · have hkj : ¬ k = j := fun h => hjk h.symm
        simp [hg, mapGet_cons, mapGet_nil, hjk, hkj]
      · simp [hg, hjk]

theorem mapGet_mapDelete (m : Table) (k j : String) :
    mapGet (mapDelete m k) j = if j = k then none else mapGet m j := by
  induction m with
  | nil => simp [mapDelete, mapGet_nil]
  | cons p m ih =>
    by_cases hpk : p.1 = k
    · have h1 : mapDelete (p :: m) k = mapDelete m k := by
        simp only [mapDelete, List.filter_cons]
        rw [if_neg (by simp [hpk])]
      rw [h1, ih, mapGet_cons]
      split_ifs <;> simp_all
    · have h1 : mapDelete (p :: m) k = p :: mapDelete m k := by
        simp only [mapDelete, List.filter_cons]
        rw [if_pos (by simp [hpk])]
      rw [h1, mapGet_cons, mapGet_cons, ih]
      split_ifs <;> simp_all

theorem mapGet_filter_bank (m : Table) (j : String) :
    mapGet (m.filter (fun p => p.1 == "Bank")) j =
      if j = "Bank" then mapGet m "Bank" else none := by
  induction m with
  | nil => simp [mapGet_nil]
  | cons p m ih =>
    rw [List.filter_cons]
    by_cases hpb : p.1 = "Bank"
    · rw [if_pos (by simp [hpb]), mapGet_cons, ih, mapGet_cons]
      split_ifs <;> simp_all
    · rw [if_neg (by simp [hpb]), ih, mapGet_cons]
      split_ifs <;> simp_all

theorem mapGet_bump (m : Table) (k : String) (d : Int) (j : String) :
    mapGet (bump m k d) j =
      if j = k then (mapGet m k).map (fun a => Account.mk (a.balance + d) a.infinite)
      else mapGet m j :=
  mapGet_updAt k _ m j

theorem mapGet_setBal (m : Table) (k : String) (b : Int) (j : String) :
    mapGet (setBal m k b) j =
      if j = k then (mapGet m k).map (fun a => Account.mk b a.infinite)
      else mapGet m j :=
  mapGet_updAt k _ m j

theorem mapGet_setInf (m : Table) (k : String) (j : String) :
    mapGet (setInf m k) j =
      if j = k then (mapGet m k).map (fun a => Account.mk a.balance true)
      else mapGet m j :=
  mapGet_updAt k _ m j

/-! Observational equality and replay algebra. -/

theorem replay_nil (m : Table) : replay m [] = m := rfl

theorem replay_cons (m : Table) (r : Rec) (recs : List Rec) :
    replay m (r :: recs) = replay (applyOp m r) recs := rfl

theorem replay_append (m : Table) (xs ys : List Rec) :
    replay m (xs ++ ys) = replay (replay m xs) ys :=
  List.foldl_append _ _ _ _

theorem obsEq_refl (m : Table) : obsEq m m := fun _ => rfl

theorem obsEq_symm {m1 m2 : Table} (h : obsEq m1 m2) : obsEq m2 m1 :=
  fun k => (h k).symm

theorem obsEq_trans {m1 m2 m3 : Table} (h1 : obsEq m1 m2) (h2 : obsEq m2 m3) : obsEq m1 m3 :=
  fun k => (h1 k).trans (h2 k)

theorem obsEq_mapHas {m1 m2 : Table} (h : obsEq m1 m2) (k : String) :
    mapHas m1 k = mapHas m2 k := by
  have hk := h k
  rw [mapHas_eq_isSome, mapHas_eq_isSome]
  rw [show (mapGet m1 k).isSome = (lookV m1 k).isSome by simp [lookV],
      show (mapGet m2 k).isSome = (lookV m2 k).isSome by simp [lookV], hk]

/-- What obsEq says at one key, in terms of the raw lookups. -/
theorem obsEq_getCases {m1 m2 : Table} (h : obsEq m1 m2) (k : String) :
    (mapGet m1 k = none ∧ mapGet m2 k = none) ∨
    (∃ a1 a2, mapGet m1 k = some a1 ∧ mapGet m2 k = some a2 ∧
      a1.infinite = a2.infinite ∧ (a1.infinite = false → a1.balance = a2.balance)) := by
  have hk := h k
  rcases hg1 : mapGet m1 k with _ | a1 <;> rcases hg2 : mapGet m2 k with _ | a2 <;>
    rw [lookV, lookV, hg1, hg2] at hk <;> simp at hk
  · exact Or.inl ⟨rfl, rfl⟩
  · refine Or.inr ⟨a1, a2, rfl, rfl, ?_, ?_⟩
    · have := congrArg Account.infinite hk
      simpa [vview] using this
    · intro hf
      have hb := congrArg Account.balance hk
      have hi := congrArg Account.infinite hk
      simp [vview, hf] at hb hi
      simpa [hi] using hb

theorem obsEq_mapSet {m1 m2 : Table} (h : obsEq m1 m2) (k : String) (v : Account) :
    obsEq (mapSet m1 k v) (mapSet m2 k v) := by
  intro j
  rw [lookV, lookV, mapGet_mapSet, mapGet_mapSet]
  split_ifs
  · rfl
  · exact h j

theorem obsEq_mapDelete {m1 m2 : Table} (h : obsEq m1 m2) (k : String) :
    obsEq (mapDelete m1 k) (mapDelete m2 k) := by
  intro j
  rw [lookV, lookV, mapGet_mapDelete, mapGet_mapDelete]
  split_ifs
  · rfl
  · exact h j

/-- Bumping the stored balance of an unlimited account is observationally
invisible. -/
theorem bump_infinite_obsEq {m : Table} {k : String} {a : Account}
    (hg : mapGet m k = some a) (hinf : a.infinite = true) (d : Int) :
    obsEq (bump m k d) m := by
  intro j
  rw [lookV, lookV, mapGet_bump]
  split_ifs with hjk
  · subst hjk
    rw [hg]
    simp [vview, hinf]
  · rfl

/-- Forcing the unlimited flag of an account whose flag is already true is
observationally invisible. -/
theorem setInf_obsEq {m : Table} {k : String} {a : Account}
    (hg : mapGet m k = some a) (hinf : a.infinite = true) :
    obsEq (setInf m k) m := by
  intro j
  rw [lookV, lookV, mapGet_setInf]
  split_ifs with hjk
  · subst hjk
    rw [hg]
    simp [vview, hinf]
  · rfl

/-- applyOp is a congruence for observational equality. -/
theorem applyOp_obsEq (r : Rec) {m1 m2 : Table} (h : obsEq m1 m2) :
    obsEq (applyOp m1 r) (applyOp m2 r) := by
  cases r with
  | create u inf =>
    simp only [applyOp]
    rw [obsEq_mapHas h u]
    split_ifs
    · exact h
    · exact obsEq_mapSet h u _
  | delete u =>
    simp only [applyOp]
    rw [obsEq_mapHas h u]
    split_ifs
    · exact obsEq_mapDelete h u
    · exact h
  | inc u amt =>
    simp only [applyOp]
    rcases obsEq_getCases h u with ⟨h1, h2⟩ | ⟨a1, a2, h1, h2, hfl, hbal⟩
    · rw [h1, h2]; exact h
    · rw [h1, h2]
      dsimp only
      rcases hf : a1.infinite with _ | _
      · rw [hf] at hfl
        rw [if_neg (by simp [hf]), if_neg (by simp [← hfl])]
        intro j
        rw [lookV, lookV, mapGet_bump, mapGet_bump]
        split_ifs with hju
        · subst hju
          rw [h1, h2]
          simp [vview, hf, ← hfl, hbal hf]
        · exact h j
      · rw [hf] at hfl
        rw [if_pos (by simp [hf]), if_pos (by simp [← hfl])]
        exact h
  | set u b =>
    simp only [applyOp]
    rcases obsEq_getCases h u with ⟨h1, h2⟩ | ⟨a1, a2, h1, h2, hfl, hbal⟩
    · rw [h1, h2]; exact h
    · rw [h1, h2]
      dsimp only
      intro j
      rw [lookV, lookV, mapGet_setBal, mapGet_setBal]
      split_ifs with hju
      · subst hju
        rw [h1, h2]
        simp only [Option.map_map, Option.map, Function.comp]
        rw [← hfl]
      · exact h j

/-- replay is a congruence for observational equality. -/
theorem replay_obsEq (recs : List Rec) {m1 m2 : Table} (h : obsEq m1 m2) :
    obsEq (replay m1 recs) (replay m2 recs) := by
  induction recs generalizing m1 m2 with
  | nil => exact h
  | cons r recs ih => exact ih (applyOp_obsEq r h)

/-! Replaying the records a request emitted, over the same starting table. -/

theorem applyOp_delete_get (m : Table) (u j : String) :
    mapGet (applyOp m (Rec.delete u)) j =
      if j = u ∧ u ≠ "" ∧ u ≠ "Bank" then none else mapGet m j := by
  simp only [applyOp]
  split_ifs with hc hj hj
  · rw [mapGet_mapDelete, if_pos hj.1]
  · obtain ⟨hne, hhas, hnb⟩ : u ≠ "" ∧ mapHas m u = true ∧ u ≠ "Bank" := by
      simp only [Bool.and_eq_true, bne_iff_ne] at hc
      exact ⟨hc.1.1, hc.1.2, hc.2⟩
    rw [mapGet_mapDelete]
    split_ifs with hju
    · exact absurd ⟨hju, hne, hnb⟩ hj
    · rfl
  · obtain ⟨hju, hne, hnb⟩ := hj
    subst hju
    rcases hg : mapGet m j with _ | a
    · rfl
    · exfalso
      apply hc
      simp only [Bool.and_eq_true, bne_iff_ne]
      exact ⟨⟨hne, by rw [mapHas_eq_isSome, hg]; rfl⟩, hnb⟩
  · rfl

theorem deletes_get (L : List String) (m : Table) (j : String) :
    mapGet (replay m (L.map Rec.delete)) j =
      if j ∈ L ∧ j ≠ "" ∧ j ≠ "Bank" then none else mapGet m j := by
  induction L generalizing m with
  | nil => simp [replay_nil]
  | cons u L ih =>
    rw [List.map_cons, replay_cons, ih, applyOp_delete_get]
    by_cases hju : j = u <;> by_cases hjL : j ∈ L <;> by_cases hje : j = "" <;>
      by_cases hjb : j = "Bank" <;> simp_all

theorem keys_mem_iff (m : Table) (j : String) :
    j ∈ m.map Prod.fst ↔ (mapGet m j).isSome = true := by
  induction m with
  | nil => simp [mapGet_nil]
  | cons p m ih =>
    rw [List.map_cons, List.mem_cons, mapGet_cons]
    by_cases hpj : p.1 = j
    · simp [hpj]
    · have hjp : ¬ j = p.1 := fun h => hpj h.symm
      simp [hpj, hjp, ih]

/-- Replaying the records one request handed to the write queue, starting
from the same table the request mutated, reaches an observationally equal
table (exactly equal except for the stored balance of an unlimited
transfer receiver). -/
theorem serve_replay_obsEq (m : Table) (op : LedgerOp) (hemp : mapGet m "" = none) :
    obsEq (replay m (serve m op).recs) (serve m op).table := by
  cases op with
  | createWallet u =>
    simp only [serve]
    split_ifs with h1 h2
    · exact obsEq_refl m
    · exact obsEq_refl m
    · show obsEq (replay m [Rec.create u false]) (mapSet m u (Account.mk 0 false))
      rw [replay_cons, replay_nil]
      simp only [applyOp]
      rw [if_neg h2]
      exact obsEq_refl _
  | deposit u amt =>
    simp only [serve]
    split_ifs with h1
    · exact obsEq_refl m
    · cases hg : mapGet m u with
      | none => exact obsEq_refl m
      | some a =>
        show obsEq (replay m [Rec.inc u amt]) (if a.infinite then m else bump m u amt)
        rw [replay_cons, replay_nil]
        simp only [applyOp]
        rw [hg]
        exact obsEq_refl _
  | transfer f t amt =>
    simp only [serve]
    split_ifs with h1
    · exact obsEq_refl m
    · cases hgf : mapGet m f with
      | none => cases hgt : mapGet m t <;> exact obsEq_refl m
      | some s =>
        cases hgt : mapGet m t with
        | none => exact obsEq_refl m
        | some r =>
          dsimp only
          by_cases h2 : s.infinite = false ∧ s.balance < amt
          · rw [if_pos h2]
            exact obsEq_refl m
          · rw [if_neg h2]
            show obsEq (replay m [Rec.inc f (-amt), Rec.inc t amt])
              (bump (if s.infinite then m else bump m f (-amt)) t amt)
            rw [replay_cons, replay_cons, replay_nil]
            have e1 : applyOp m (Rec.inc f (-amt)) =
                (if s.infinite then m else bump m f (-amt)) := by
              simp only [applyOp]
              rw [hgf]
            rw [e1]
            set m1 := if s.infinite then m else bump m f (-amt) with hm1
            have hsome : (mapGet m1 t).isSome = true := by
              rw [hm1]
              split_ifs with hs
              · rw [hgt]; rfl
              · rw [mapGet_bump]
                split_ifs with htf
                · rw [hgf]; rfl
                · rw [hgt]; rfl
            obtain ⟨r1, hr1⟩ := Option.isSome_iff_exists.mp hsome
            have e2 : applyOp m1 (Rec.inc t amt) = if r1.infinite then m1 else bump m1 t amt := by
              simp only [applyOp]
              rw [hr1]
            rw [e2]
            by_cases hri : r1.infinite = true
            · rw [if_pos hri]
              exact obsEq_symm (bump_infinite_obsEq hr1 hri amt)
            · rw [if_neg hri]
              exact obsEq_refl _
  | deleteAccount u =>
    simp only [serve]
    split_ifs with h1 h2 h3
    · exact obsEq_refl m
    · exact obsEq_refl m
    · show obsEq (replay m [Rec.delete u]) (mapDelete m u)
      rw [replay_cons, replay_nil]
      simp only [applyOp]
      rw [if_pos (by simp only [Bool.and_eq_true, bne_iff_ne]; exact ⟨⟨h1, h3⟩, h2⟩)]
      exact obsEq_refl _
    · exact obsEq_refl m
  | deleteAll code =>
    simp only [serve]
    split_ifs with h1 h2
    · exact obsEq_refl m
    · exact obsEq_refl m
    · show obsEq (replay m (((m.map Prod.fst).filter (fun k => k ≠ "Bank")).map Rec.delete))
        (m.filter (fun p => p.1 == "Bank"))
      intro j
      rw [lookV, lookV, deletes_get, mapGet_filter_bank]
      by_cases hjb : j = "Bank"
      · rw [if_neg (fun hcon => hcon.2.2 hjb), if_pos hjb, hjb]
      · rw [if_neg hjb]
        by_cases hje : j = ""
        · rw [if_neg (fun hcon => hcon.2.1 hje), hje, hemp]
        · rcases hg : mapGet m j with _ | a
          · have hnm : j ∉ (m.map Prod.fst).filter (fun k => k ≠ "Bank") := by
              intro hmem
              have hk := (List.mem_filter.mp hmem).1
              rw [keys_mem_iff, hg] at hk
              cases hk
            rw [if_neg (fun hcon => hnm hcon.1)]
          · have hmem : j ∈ (m.map Prod.fst).filter (fun k => k ≠ "Bank") := by
              rw [List.mem_filter]
              exact ⟨(keys_mem_iff m j).mpr (by rw [hg]; rfl), by simp [hjb]⟩
            rw [if_pos ⟨hmem, hje, hjb⟩]

/-! Invariants of the live table maintained by the route handlers. -/

theorem serve_preserves_empty (m : Table) (op : LedgerOp) (hemp : mapGet m "" = none) :
    mapGet (serve m op).table "" = none := by
  cases op with
  | createWallet u =>
    simp only [serve]
    split_ifs with h1 h2
    · exact hemp
    · exact hemp
    · rw [mapGet_mapSet, if_neg (fun hh => h1 hh.symm)]
      exact hemp
  | deposit u amt =>
    simp only [serve]
    split_ifs with h1
    · exact hemp
    · push_neg at h1
      cases hg : mapGet m u with
      | none => exact hemp
      | some a =>
        dsimp only
        split_ifs with hinf
        · exact hemp
        · rw [mapGet_bump, if_neg (fun hh => h1.1 hh.symm)]
          exact hemp
  | transfer f t amt =>
    simp only [serve]
    split_ifs with h1
    · exact hemp
    · push_neg at h1
      cases hgf : mapGet m f with
      | none => cases hgt : mapGet m t <;> exact hemp
      | some s =>
        cases hgt : mapGet m t with
        | none => exact hemp
        | some r =>
          dsimp only
          by_cases h2 : s.infinite = false ∧ s.balance < amt
          · rw [if_pos h2]
            exact hemp
          · rw [if_neg h2]
            show mapGet (bump (if s.infinite then m else bump m f (-amt)) t amt) "" = none
            rw [mapGet_bump, if_neg (fun hh => h1.2.1 hh.symm)]
            split_ifs with hs
            · exact hemp
            · rw [mapGet_bump, if_neg (fun hh => h1.1 hh.symm)]
              exact hemp
  | deleteAccount u =>
    simp only [serve]
    split_ifs with h1 h2 h3
    · exact hemp
    · exact hemp
    · rw [mapGet_mapDelete]
      split_ifs with hh
      · rfl
      · exact hemp
    · exact hemp
  | deleteAll code =>
    simp only [serve]
    split_ifs with h1 h2
    · exact hemp
    · exact hemp
    · rw [mapGet_filter_bank, if_neg (by decide)]

theorem serve_preserves_bank (m : Table) (op : LedgerOp)
    (hbank : ∃ b, mapGet m "Bank" = some (Account.mk b true)) :
    ∃ b, mapGet (serve m op).table "Bank" = some (Account.mk b true) := by
  obtain ⟨b0, hb⟩ := hbank
  cases op with
  | createWallet u =>
    simp only [serve]
    split_ifs with h1 h2
    · exact ⟨b0, hb⟩
    · exact ⟨b0, hb⟩
    · refine ⟨b0, ?_⟩
      rw [mapGet_mapSet]
      split_ifs with hbu
      · exact absurd (by rw [mapHas_eq_isSome, ← hbu, hb]; rfl) h2
      · exact hb
  | deposit u amt =>
    simp only [serve]
    split_ifs with h1
    · exact ⟨b0, hb⟩
    · cases hg : mapGet m u with
      | none => exact ⟨b0, hb⟩
      | some a =>
        dsimp only
        split_ifs with hinf
        · exact ⟨b0, hb⟩
        · rw [mapGet_bump]
          split_ifs with hbu
          · rw [← hbu, hb]
            exact ⟨b0 + amt, rfl⟩
          · exact ⟨b0, hb⟩
  | transfer f t amt =>
    simp only [serve]
    split_ifs with h1
    · exact ⟨b0, hb⟩
    · cases hgf : mapGet m f with
      | none => cases hgt : mapGet m t <;> exact ⟨b0, hb⟩
      | some s =>
        cases hgt : mapGet m t with
        | none => exact ⟨b0, hb⟩
        | some r =>
          dsimp only
          by_cases h2 : s.infinite = false ∧ s.balance < amt
          · rw [if_pos h2]
            exact ⟨b0, hb⟩
          · rw [if_neg h2]
            show ∃ b, mapGet (bump (if s.infinite then m else bump m f (-amt)) t amt) "Bank"
              = some (Account.mk b true)
            have hinner : ∃ b1, mapGet (if s.infinite then m else bump m f (-amt)) "Bank"
                = some (Account.mk b1 true) := by
              split_ifs with hs
              · exact ⟨b0, hb⟩
              · rw [mapGet_bump]
                split_ifs with hbf
                · rw [← hbf, hb]
                  exact ⟨b0 + -amt, rfl⟩
                · exact ⟨b0, hb⟩
            obtain ⟨b1, hb1⟩ := hinner
            rw [mapGet_bump]
            by_cases hbt : ("Bank" : String) = t
            · rw [if_pos hbt, ← hbt, hb1]
              exact ⟨b1 + amt, rfl⟩
            · rw [if_neg hbt]
              exact ⟨b1, hb1⟩
  | deleteAccount u =>
    simp only [serve]
    split_ifs with h1 h2 h3
    · exact ⟨b0, hb⟩
    · exact ⟨b0, hb⟩
    · refine ⟨b0, ?_⟩
      rw [mapGet_mapDelete, if_neg (fun hh => h2 hh.symm)]
      exact hb
    · exact ⟨b0, hb⟩
  | deleteAll code =>
    simp only [serve]
    split_ifs with h1 h2
    · exact ⟨b0, hb⟩
    · exact ⟨b0, hb⟩
    · refine ⟨b0, ?_⟩
      rw [mapGet_filter_bank, if_pos rfl]
      exact hb

-- Sanity checks (concrete executions of the embedded code).
example : mapGet (mapSet [] "a" (Account.mk 3 false)) "a" = some (Account.mk 3 false) := by decide
example :
    (runOps initTable [LedgerOp.createWallet "Alice", LedgerOp.deposit "Alice" 100]).1
      = [("Bank", Account.mk 0 true), ("Alice", Account.mk 100 false)] := by decide
example :
    (runOps initTable [LedgerOp.createWallet "Alice", LedgerOp.deposit "Alice" 100,
      LedgerOp.transfer "Alice" "Bank" 50]).1
      = [("Bank", Account.mk 50 true), ("Alice", Account.mk 50 false)] := by decide
example :
    recover []
      (initLog ++ (runOps initTable [LedgerOp.createWallet "Alice", LedgerOp.deposit "Alice" 100,
        LedgerOp.transfer "Alice" "Bank" 50]).2)
      = [("Bank", Account.mk 0 true), ("Alice", Account.mk 50 false)] := by decide

/-- Main simulation: if the replayed log is observationally equal to the
live table, it stays so after serving any further requests and appending
their records, and the live table keeps its invariants (no empty-named
account, Bank present and unlimited). -/
theorem runOps_replay (ops : List LedgerOp) :
    ∀ (live : Table) (log : List Rec),
      obsEq (replay [] log) live → mapGet live "" = none →
      (∃ b, mapGet live "Bank" = some (Account.mk b true)) →
      obsEq (replay [] (log ++ (runOps live ops).2)) (runOps live ops).1 ∧
      mapGet (runOps live ops).1 "" = none ∧
      (∃ b, mapGet (runOps live ops).1 "Bank" = some (Account.mk b true)) := by
  induction ops with
  | nil =>
    intro live log hobs hemp hbank
    refine ⟨?_, hemp, hbank⟩
    simpa [runOps] using hobs
  | cons op ops ih =>
    intro live log hobs hemp hbank
    have hserve : obsEq (replay [] (log ++ (serve live op).recs)) (serve live op).table := by
      rw [replay_append]
      exact obsEq_trans (replay_obsEq _ hobs) (serve_replay_obsEq live op hemp)
    have h1 := ih (serve live op).table (log ++ (serve live op).recs) hserve
      (serve_preserves_empty live op hemp) (serve_preserves_bank live op hbank)
    have hunfold : runOps live (op :: ops)
        = ((runOps (serve live op).table ops).1,
           (serve live op).recs ++ (runOps (serve live op).table ops).2) := rfl
    rw [hunfold]
    refine ⟨?_, h1.2.1, h1.2.2⟩
    rw [← List.append_assoc]
    exact h1.1

/-- C1 (counterexample): replaying the operation log does not reconstruct
exactly the live table. After create Alice, deposit 100, transfer 50 from
Alice to the Bank, the live transfer credit bumped the stored balance of
the unlimited Bank account to 50, but replaying the logged inc record via
applyOp skips unlimited accounts, so recovery reconstructs the Bank with
stored balance 0: the recovered table differs from the live one. -/
theorem c1_recovery_differs_from_live_on_bank_balance :
    recover [] (initLog ++ (runOps initTable c1ops).2) ≠ (runOps initTable c1ops).1 ∧
    mapGet (recover [] (initLog ++ (runOps initTable c1ops).2)) "Bank"
      = some (Account.mk 0 true) ∧
    mapGet ((runOps initTable c1ops).1) "Bank" = some (Account.mk 50 true) := by
  decide

/-- C1 (amended): for every sequence of requests served from the first-run
state, recovery over the produced log (the Bank create record followed by
every record the requests enqueued) reconstructs a table observationally
equal to the live one: same accounts, same unlimited flags, and same
balances on every non-unlimited account; only the meaningless stored
balance of an unlimited account may differ. -/
theorem c1_recovery_matches_live_up_to_unlimited_balances (ops : List LedgerOp) :
    obsEq (recover [] (initLog ++ (runOps initTable ops).2)) (runOps initTable ops).1 := by
  have hbase : obsEq (replay [] initLog) initTable := by
    have h : replay [] initLog = initTable := by decide
    rw [h]
    exact obsEq_refl _
  obtain ⟨h1, h2, h3⟩ := runOps_replay ops initTable initLog hbase (by decide) ⟨0, by decide⟩
  obtain ⟨b, hB⟩ := h3
  have hXb := h1 "Bank"
  rw [lookV, lookV, hB] at hXb
  rcases hg : mapGet (replay [] (initLog ++ (runOps initTable ops).2)) "Bank" with _ | a
  · rw [hg] at hXb
    simp at hXb
  · rw [hg] at hXb
    have hva : vview a = vview (Account.mk b true) := by simpa using hXb
    have hainf : a.infinite = true := by
      have hi := congrArg Account.infinite hva
      simpa [vview] using hi
    have hhas : mapHas (replay [] (initLog ++ (runOps initTable ops).2)) "Bank" = true := by
      rw [mapHas_eq_isSome, hg]; rfl
    have hre : recover [] (initLog ++ (runOps initTable ops).2)
        = setInf (replay [] (initLog ++ (runOps initTable ops).2)) "Bank" := by
      unfold recover ensureBankP
      rw [show loadSnap ([] : Table) = [] from rfl, if_pos hhas]
    rw [hre]
    exact obsEq_trans (setInf_obsEq hg hainf) h1

/-- C2 (code_bug demonstration): a snapshot committed while records are
still sitting in the pending write batch does not satisfy the
snapshot-plus-later-log invariant. In the c2trace schedule the snapshot
fires (scheduled by deleteAll) after two further requests were applied in
memory but before their records were flushed; the flush then appends those
records to the truncated log, so recovery applies them on top of a snapshot
that already contains their effects: Bob recovers with balance 200 while
the live table has 100. -/
theorem c2_snapshot_over_pending_batch_duplicates_effects :
    (runSys sys0 c2trace).snaps = 1 ∧
    mapGet (runSys sys0 c2trace).users "Bob" = some (Account.mk 100 false) ∧
    mapGet (recover (runSys sys0 c2trace).snapFile (runSys sys0 c2trace).log) "Bob"
      = some (Account.mk 200 false) := by
  decide

theorem flushSys_snaps (s : Sys) : (flushSys s).snaps = s.snaps := by
  simp only [flushSys]
  rw [if_neg (by decide)]

theorem enqueueWrite_snaps (s : Sys) (r : Rec) : (enqueueWrite s r).snaps = s.snaps := by
  simp only [enqueueWrite]
  split_ifs with h
  · rw [flushSys_snaps]
  · rfl

theorem foldl_enqueueWrite_snaps (recs : List Rec) (s : Sys) :
    (recs.foldl enqueueWrite s).snaps = s.snaps := by
  induction recs generalizing s with
  | nil => rfl
  | cons r recs ih => rw [List.foldl_cons, ih, enqueueWrite_snaps]

theorem stepSys_request_snaps (s : Sys) (op : LedgerOp) :
    (stepSys s (Evt.request op)).snaps = s.snaps := by
  simp only [stepSys]
  rw [foldl_enqueueWrite_snaps]

theorem runSys_requests_snaps (ops : List LedgerOp) (s : Sys) :
    (runSys s (ops.map Evt.request)).snaps = s.snaps := by
  induction ops generalizing s with
  | nil => rfl
  | cons op ops ih =>
    rw [List.map_cons]
    show (runSys (stepSys s (Evt.request op)) (ops.map Evt.request)).snaps = s.snaps
    rw [ih, stepSys_request_snaps]

/-- C6 (code_bug demonstration): the snapshot threshold never fires on the
request path. The check runs after a batch append and reads
pendingOpsSinceSnapshot(), which returns the length of the pending buffer —
just spliced empty by the flush — instead of a count of records since the
last snapshot. Hence any request-only schedule performs zero
snapshot-plus-truncate cycles; in particular 1000 account creations with
threshold 1000 trigger zero snapshots, not exactly one. -/
theorem c6_snapshot_threshold_never_fires :
    (∀ (ops : List LedgerOp), (runSys sys0 (ops.map Evt.request)).snaps = 0) ∧
    (runSys sys0 ((mkCreates 1000).map Evt.request)).snaps = 0 := by
  have hall : ∀ (ops : List LedgerOp), (runSys sys0 (ops.map Evt.request)).snaps = 0 :=
    fun ops => (runSys_requests_snaps ops sys0).trans rfl
  exact ⟨hall, hall (mkCreates 1000)⟩

theorem ensureBankP_spec (m : Table) :
    (∃ b, mapGet (ensureBankP m).1 "Bank" = some (Account.mk b true)) ∧
    (ensureBankP m).2 = (if mapHas m "Bank" then [] else [Rec.create "Bank" true]) := by
  unfold ensureBankP
  by_cases h : mapHas m "Bank" = true
  · rw [if_pos h, if_pos h]
    refine ⟨?_, rfl⟩
    rcases hg : mapGet m "Bank" with _ | a
    · rw [mapHas_eq_isSome, hg] at h
      cases h
    · refine ⟨a.balance, ?_⟩
      rw [mapGet_setInf, if_pos rfl, hg]
      rfl
  · rw [if_neg h, if_neg h]
    exact ⟨⟨0, by rw [mapGet_mapSet, if_pos rfl]⟩, rfl⟩

/-- C7: after recovery, for every snapshot content and every log content,
the Bank account exists and its unlimited flag is true; recovery enqueues
the Bank create record for persistence exactly when the replayed state did
not already contain the Bank. -/
theorem c7_recovery_ensures_unlimited_bank (snap : Table) (recs : List Rec) :
    (∃ b, mapGet (recover snap recs) "Bank" = some (Account.mk b true)) ∧
    recoverEnq snap recs =
      (if mapHas (replay (loadSnap snap) recs) "Bank" then []
       else [Rec.create "Bank" true]) :=
  ⟨(ensureBankP_spec _).1, (ensureBankP_spec _).2⟩

/-- C8: crediting an unlimited account is a no-op on the stored table (the
deposit route leaves the table exactly unchanged) while the inc record is
still handed to the write queue; replaying such an inc record is likewise a
no-op; and getBalance on an unlimited account returns the string sentinel
"infinite", never a number. -/
theorem c8_credit_unlimited_noop_but_recorded :
    (∀ (m : Table) (u : String) (amt : Int) (a : Account),
      u ≠ "" → 0 < amt → mapGet m u = some a → a.infinite = true →
      serve m (LedgerOp.deposit u amt) = ⟨m, [Rec.inc u amt], Resp.ok⟩) ∧
    (∀ (m : Table) (u : String) (amt : Int) (a : Account),
      mapGet m u = some a → a.infinite = true → applyOp m (Rec.inc u amt) = m) ∧
    (∀ (m : Table) (u : String) (a : Account),
      mapGet m u = some a → a.infinite = true →
      getBalance m u = some (Jv.str "infinite")) := by
  refine ⟨?_, ?_, ?_⟩
  · intro m u amt a hu hamt hg hinf
    simp only [serve]
    rw [if_neg (by push_neg; exact ⟨hu, by omega⟩), hg]
    dsimp only
    rw [if_pos hinf]
  · intro m u amt a hg hinf
    simp only [applyOp]
    rw [hg]
    dsimp only
    rw [if_pos hinf]
  · intro m u a hg hinf
    unfold getBalance
    rw [hg]
    simp [hinf]

/-- Witness for C8, at the Bank account of a one-account table. -/
theorem c8_witness :
    serve [("Bank", Account.mk 0 true)] (LedgerOp.deposit "Bank" 5)
      = ⟨[("Bank", Account.mk 0 true)], [Rec.inc "Bank" 5], Resp.ok⟩ ∧
    applyOp [("Bank", Account.mk 0 true)] (Rec.inc "Bank" 5)
      = [("Bank", Account.mk 0 true)] ∧
    getBalance [("Bank", Account.mk 0 true)] "Bank" = some (Jv.str "infinite") :=
  ⟨c8_credit_unlimited_noop_but_recorded.1 [("Bank", Account.mk 0 true)] "Bank" 5
      (Account.mk 0 true) (by decide) (by decide) (by decide) rfl,
   c8_credit_unlimited_noop_but_recorded.2.1 [("Bank", Account.mk 0 true)] "Bank" 5
      (Account.mk 0 true) (by decide) rfl,
   c8_credit_unlimited_noop_but_recorded.2.2 [("Bank", Account.mk 0 true)] "Bank"
      (Account.mk 0 true) (by decide) rfl⟩

/-- A blank or unparseable trailing log line is skipped by the replay
loop — the recovery result over the log with such a trailing line equals
the result over the well-formed prefix, and recovery never aborts. -/
theorem replayLines_skips_bad_trailing_line (parse : String → Option Rec)
    (m : Table) (lines : List String) (bad : String)
    (h : bad.trim = "" ∨ parse bad = none) :
    replayLines parse m (lines ++ [bad]) = replayLines parse m lines := by
  unfold replayLines
  rw [List.foldl_append]
  rcases h with h | h
  · simp [h]
  · by_cases ht : bad.trim = "" <;> simp [ht, h]

theorem replayLineStep_foldl (parse : String → Option Rec) (lines : List String) :
    ∀ acc : Table × List String,
      lines.foldl (replayLineStep parse) acc = (replayLines parse acc.1 lines, acc.2) := by
  induction lines with
  | nil =>
    intro acc
    rfl
  | cons l ls ih =>
    intro acc
    rw [List.foldl_cons, ih]
    have hcons : replayLines parse acc.1 (l :: ls)
        = replayLines parse
            (if l.trim = "" then acc.1
             else
               match parse l with
               | none => acc.1
               | some r => applyOp acc.1 r) ls := rfl
    rw [hcons]
    unfold replayLineStep
    by_cases ht : l.trim = ""
    · rw [if_pos ht, if_pos ht]
    · rw [if_neg ht, if_neg ht]
      cases hp : parse l
      · rfl
      · rfl

/-- The replay loop computes exactly the replayLines table and prints
nothing at all: every branch of the loop body, including the catch that
swallows a parse failure, emits no message. -/
theorem replayLinesLogged_spec (parse : String → Option Rec) (m : Table)
    (lines : List String) :
    replayLinesLogged parse m lines = (replayLines parse m lines, []) := by
  unfold replayLinesLogged
  rw [replayLineStep_foldl]

/-- C9 (counterexample): the skipped record is not logged. At a concrete
log of one well-formed line and a truncated trailing line, the replay loop
does skip the bad line and applies the good record, but its printed output
is empty — the catch block around the per-line parse is empty, so no event
is logged, contrary to the claim. -/
theorem c9_skip_logs_nothing :
    (replayLinesLogged
        (fun s => if s = "good" then some (Rec.create "A" false) else none)
        initTable (["good"] ++ ["trunc"])).1
      = replayLines (fun s => if s = "good" then some (Rec.create "A" false) else none)
          initTable ["good"] ∧
    (replayLinesLogged
        (fun s => if s = "good" then some (Rec.create "A" false) else none)
        initTable (["good"] ++ ["trunc"])).2 = [] := by
  rw [replayLinesLogged_spec]
  exact ⟨replayLines_skips_bad_trailing_line
    (fun s => if s = "good" then some (Rec.create "A" false) else none)
    initTable ["good"] "trunc" (Or.inr (by decide)), rfl⟩

/-- C9 (amended): a blank or unparseable trailing log line is detected and
skipped by the replay loop and every well-formed record is applied —
recovery continues rather than aborting — but the skip is silent: the
replay loop prints no message for it (its catch block is empty). -/
theorem c9_bad_trailing_line_skipped_without_logging (parse : String → Option Rec)
    (m : Table) (lines : List String) (bad : String)
    (h : bad.trim = "" ∨ parse bad = none) :
    (replayLinesLogged parse m (lines ++ [bad])).1 = replayLines parse m lines ∧
    (replayLinesLogged parse m (lines ++ [bad])).2 = [] := by
  rw [replayLinesLogged_spec]
  exact ⟨replayLines_skips_bad_trailing_line parse m lines bad h, rfl⟩

/-- Witness for C9: a one-good-line log with a truncated trailing line. -/
theorem c9_silent_skip_witness :
    ((fun s : String => if s = "good" then some (Rec.create "A" false) else none)
        "trunc" = none) ∧
    (replayLinesLogged
        (fun s => if s = "good" then some (Rec.create "A" false) else none)
        initTable (["good", "x"] ++ ["trunc"])).1
      = replayLines (fun s => if s = "good" then some (Rec.create "A" false) else none)
          initTable ["good", "x"] ∧
    (replayLinesLogged
        (fun s => if s = "good" then some (Rec.create "A" false) else none)
        initTable (["good", "x"] ++ ["trunc"])).2 = [] :=
  ⟨by decide,
   (c9_bad_trailing_line_skipped_without_logging
     (fun s => if s = "good" then some (Rec.create "A" false) else none)
     initTable ["good", "x"] "trunc" (Or.inr (by decide))).1,
   (c9_bad_trailing_line_skipped_without_logging
     (fun s => if s = "good" then some (Rec.create "A" false) else none)
     initTable ["good", "x"] "trunc" (Or.inr (by decide))).2⟩

theorem applyOp_bank_has (m : Table) (r : Rec) (h : mapHas m "Bank" = true) :
    mapHas (applyOp m r) "Bank" = true := by
  cases r with
  | create u inf =>
    simp only [applyOp]
    split_ifs with hc
    · exact h
    · rw [mapHas_eq_isSome, mapGet_mapSet]
      split_ifs with hb
      · rfl
      · exact h
  | delete u =>
    simp only [applyOp]
    split_ifs with hc
    · obtain ⟨-, -, hnb⟩ : u ≠ "" ∧ mapHas m u = true ∧ u ≠ "Bank" := by
        simp only [Bool.and_eq_true, bne_iff_ne] at hc
        exact ⟨hc.1.1, hc.1.2, hc.2⟩
      rw [mapHas_eq_isSome, mapGet_mapDelete, if_neg (fun hh => hnb hh.symm)]
      exact h
    · exact h
  | inc u amt =>
    simp only [applyOp]
    cases hg : mapGet m u with
    | none => exact h
    | some a =>
      dsimp only
      split_ifs with hinf
      · exact h
      · rw [mapHas_eq_isSome, mapGet_bump]
        split_ifs with hb
        · simp [hg]
        · exact h
  | set u b =>
    simp only [applyOp]
    cases hg : mapGet m u with
    | none => exact h
    | some a =>
      dsimp only
      rw [mapHas_eq_isSome, mapGet_setBal]
      split_ifs with hb
      · simp [hg]
      · exact h

/-- C10: a delete record targeting the Bank is a complete no-op for
applyOp, and no sequence of log records can remove the Bank from the
table. -/
theorem c10_log_cannot_remove_bank :
    (∀ m : Table, applyOp m (Rec.delete "Bank") = m) ∧
    (∀ (m : Table) (recs : List Rec), mapHas m "Bank" = true →
      mapHas (replay m recs) "Bank" = true) := by
  constructor
  · intro m
    simp only [applyOp]
    rw [if_neg (by simp)]
  · intro m recs
    induction recs generalizing m with
    | nil => exact fun h => h
    | cons r recs ih =>
      intro h
      rw [replay_cons]
      exact ih _ (applyOp_bank_has m r h)

/-- Witness for C10: a forged delete record for the Bank, replayed over a
two-account table, leaves everything in place. -/
theorem c10_witness :
    applyOp [("Bank", Account.mk 0 true), ("Alice", Account.mk 7 false)]
        (Rec.delete "Bank")
      = [("Bank", Account.mk 0 true), ("Alice", Account.mk 7 false)] ∧
    mapHas (replay [("Bank", Account.mk 0 true)]
        [Rec.delete "Bank", Rec.set "Bank" 3, Rec.delete "Bank"]) "Bank" = true :=
  ⟨c10_log_cannot_remove_bank.1 [("Bank", Account.mk 0 true), ("Alice", Account.mk 7 false)],
   c10_log_cannot_remove_bank.2 [("Bank", Account.mk 0 true)]
     [Rec.delete "Bank", Rec.set "Bank" 3, Rec.delete "Bank"] (by decide)⟩

/-- C3: no route handler ever makes a non-unlimited balance negative: the
invariant holds in the first-run table, is preserved by every request, and
a debit exceeding the sender balance of a non-unlimited sender is rejected
(non-ok response, table untouched, no record enqueued), never clamped or
applied. -/
theorem c3_no_negative_balances :
    nonNeg initTable ∧
    (∀ (m : Table) (op : LedgerOp), nonNeg m → nonNeg (serve m op).table) ∧
    (∀ (m : Table) (f t : String) (amt : Int) (s : Account),
      mapGet m f = some s → s.infinite = false → s.balance < amt →
      (serve m (LedgerOp.transfer f t amt)).resp ≠ Resp.ok ∧
      (serve m (LedgerOp.transfer f t amt)).table = m ∧
      (serve m (LedgerOp.transfer f t amt)).recs = []) := by
  refine ⟨?_, ?_, ?_⟩
  · intro k a hk hfin
    rw [show (initTable : Table) = [("Bank", Account.mk 0 true)] from rfl,
      mapGet_cons, mapGet_nil] at hk
    by_cases hbk : ("Bank" : String) = k
    · rw [if_pos hbk] at hk
      cases hk
      exact absurd hfin (by decide)
    · rw [if_neg hbk] at hk
      cases hk
  · intro m op hm
    cases op with
    | createWallet u =>
      simp only [serve]
      split_ifs with h1 h2
      · exact hm
      · exact hm
      · intro k a hk hfin
        rw [mapGet_mapSet] at hk
        split_ifs at hk with hku
        · cases hk
          exact le_refl 0
        · exact hm k a hk hfin
    | deposit u amt =>
      simp only [serve]
      split_ifs with h1
      · exact hm
      · push_neg at h1
        cases hg : mapGet m u with
        | none => exact hm
        | some a0 =>
          dsimp only
          split_ifs with hinf
          · exact hm
          · intro k a hk hfin
            rw [mapGet_bump] at hk
            split_ifs at hk with hku
            · rw [hg] at hk
              cases hk
              have h0 := hm u a0 hg (by simpa using hfin)
              have hpos : 0 < amt := h1.2
              show 0 ≤ a0.balance + amt
              omega
            · exact hm k a hk hfin
    | transfer f t amt =>
      simp only [serve]
      split_ifs with h1
      · exact hm
      · push_neg at h1
        cases hgf : mapGet m f with
        | none => cases hgt : mapGet m t <;> exact hm
        | some s =>
          cases hgt : mapGet m t with
          | none => exact hm
          | some r =>
            dsimp only
            by_cases h2 : s.infinite = false ∧ s.balance < amt
            · rw [if_pos h2]
              exact hm
            · rw [if_neg h2]
              show nonNeg (bump (if s.infinite then m else bump m f (-amt)) t amt)
              have hm1 : nonNeg (if s.infinite then m else bump m f (-amt)) := by
                split_ifs with hs
                · exact hm
                · intro k a hk hfin
                  rw [mapGet_bump] at hk
                  split_ifs at hk with hkf
                  · rw [hgf] at hk
                    cases hk
                    have h0 := hm f s hgf (by simpa using hfin)
                    have hsf : s.infinite = false := by
                      cases hsx : s.infinite
                      · rfl
                      · exact absurd hsx hs
                    have hle : amt ≤ s.balance := by
                      by_contra hlt
                      exact h2 ⟨hsf, by omega⟩
                    show 0 ≤ s.balance + -amt
                    omega
                  · exact hm k a hk hfin
              intro k a hk hfin
              rw [mapGet_bump] at hk
              by_cases hkt : k = t
              · rw [if_pos hkt] at hk
                rcases hr1 : mapGet (if s.infinite then m else bump m f (-amt)) t with _ | r1
                · rw [hr1] at hk
                  cases hk
                · rw [hr1] at hk
                  cases hk
                  have h0 := hm1 t r1 hr1 (by simpa using hfin)
                  have hpos : 0 < amt := h1.2.2
                  show 0 ≤ r1.balance + amt
                  omega
              · rw [if_neg hkt] at hk
                exact hm1 k a hk hfin
    | deleteAccount u =>
      simp only [serve]
      split_ifs with h1 h2 h3
      · exact hm
      · exact hm
      · intro k a hk hfin
        rw [mapGet_mapDelete] at hk
        by_cases hku : k = u
        · rw [if_pos hku] at hk
          exact Option.noConfusion hk
        · rw [if_neg hku] at hk
          exact hm k a hk hfin
      · exact hm
    | deleteAll code =>
      simp only [serve]
      split_ifs with h1 h2
      · exact hm
      · exact hm
      · intro k a hk hfin
        rw [mapGet_filter_bank] at hk
        by_cases hkb : k = "Bank"
        · rw [if_pos hkb] at hk
          exact hm "Bank" a hk hfin
        · rw [if_neg hkb] at hk
          exact Option.noConfusion hk
  · intro m f t amt s hs hsinf hslt
    simp only [serve]
    split_ifs with h1
    · exact ⟨fun hcon => Resp.noConfusion hcon, rfl, rfl⟩
    · rw [hs]
      cases hgt : mapGet m t with
      | none => exact ⟨fun hcon => Resp.noConfusion hcon, rfl, rfl⟩
      | some r =>
        dsimp only
        rw [if_pos ⟨hsinf, hslt⟩]
        exact ⟨fun hcon => Resp.noConfusion hcon, rfl, rfl⟩

/-- Witness for C3, at an Alice-and-Bob table with an overdraft attempt
(transfer 150 from a balance of 100). -/
theorem c3_witness :
    nonNeg [("Alice", Account.mk 100 false), ("Bob", Account.mk 0 false)] ∧
    nonNeg (serve [("Alice", Account.mk 100 false), ("Bob", Account.mk 0 false)]
      (LedgerOp.deposit "Alice" 3)).table ∧
    (serve [("Alice", Account.mk 100 false), ("Bob", Account.mk 0 false)]
      (LedgerOp.transfer "Alice" "Bob" 150)).resp ≠ Resp.ok ∧
    (serve [("Alice", Account.mk 100 false), ("Bob", Account.mk 0 false)]
      (LedgerOp.transfer "Alice" "Bob" 150)).table
      = [("Alice", Account.mk 100 false), ("Bob", Account.mk 0 false)] := by
  have hm : nonNeg [("Alice", Account.mk 100 false), ("Bob", Account.mk 0 false)] := by
    intro k a hk hfin
    rw [mapGet_cons, mapGet_cons, mapGet_nil] at hk
    by_cases ha : ("Alice" : String) = k
    · rw [if_pos ha] at hk
      cases hk
      decide
    · rw [if_neg ha] at hk
      by_cases hb : ("Bob" : String) = k
      · rw [if_pos hb] at hk
        cases hk
        decide
      · rw [if_neg hb] at hk
        cases hk
  have hrej := c3_no_negative_balances.2.2
    [("Alice", Account.mk 100 false), ("Bob", Account.mk 0 false)]
    "Alice" "Bob" 150 (Account.mk 100 false) (by decide) rfl (by decide)
  exact ⟨hm, c3_no_negative_balances.2.1 _ (LedgerOp.deposit "Alice" 3) hm,
    hrej.1, hrej.2.1⟩

/-- C4: a transfer whose non-unlimited sender holds less than the amount
fails with the insufficient-funds response, leaves the table unchanged and
enqueues no record; in general every request answered with a non-ok
response (missing parameter, already exists, invalid amount, not found,
insufficient funds, forbidden Bank deletion, admin-code failure) leaves the
table exactly unchanged and hands nothing to the write queue. -/
theorem c4_validation_errors_cause_no_mutation :
    (∀ (m : Table) (f t : String) (amt : Int) (s r : Account),
      f ≠ "" → t ≠ "" → 0 < amt →
      mapGet m f = some s → mapGet m t = some r →
      s.infinite = false → s.balance < amt →
      serve m (LedgerOp.transfer f t amt) = ⟨m, [], Resp.insufficientFunds⟩) ∧
    (∀ (m : Table) (op : LedgerOp), (serve m op).resp ≠ Resp.ok →
      (serve m op).table = m ∧ (serve m op).recs = []) := by
  constructor
  · intro m f t amt s r hf ht hamt hgs hgr hsinf hslt
    simp only [serve]
    rw [if_neg (by push_neg; exact ⟨hf, ht, by omega⟩), hgs, hgr]
    dsimp only
    rw [if_pos ⟨hsinf, hslt⟩]
  · intro m op
    cases op with
    | createWallet u =>
      simp only [serve]
      split_ifs <;> intro hne
      · exact ⟨rfl, rfl⟩
      · exact ⟨rfl, rfl⟩
      · exact absurd rfl hne
    | deposit u amt =>
      simp only [serve]
      split_ifs with h1
      · intro _
        exact ⟨rfl, rfl⟩
      · cases hg : mapGet m u with
        | none =>
          intro _
          exact ⟨rfl, rfl⟩
        | some a =>
          intro hne
          exact absurd rfl hne
    | transfer f t amt =>
      simp only [serve]
      split_ifs with h1
      · intro _
        exact ⟨rfl, rfl⟩
      · cases hgf : mapGet m f with
        | none =>
          cases hgt : mapGet m t <;> (intro _; exact ⟨rfl, rfl⟩)
        | some s =>
          cases hgt : mapGet m t with
          | none =>
            intro _
            exact ⟨rfl, rfl⟩
          | some r =>
            dsimp only
            by_cases h2 : s.infinite = false ∧ s.balance < amt
            · rw [if_pos h2]
              intro _
              exact ⟨rfl, rfl⟩
            · rw [if_neg h2]
              intro hne
              exact absurd rfl hne
    | deleteAccount u =>
      simp only [serve]
      split_ifs <;> intro hne
      · exact ⟨rfl, rfl⟩
      · exact ⟨rfl, rfl⟩
      · exact absurd rfl hne
      · exact ⟨rfl, rfl⟩
    | deleteAll code =>
      simp only [serve]
      split_ifs <;> intro hne
      · exact ⟨rfl, rfl⟩
      · exact ⟨rfl, rfl⟩
      · exact absurd rfl hne

/-- Witness for C4: the spec scenario transfer(Alice, Bob, 150) with
balance(Alice) = 100. -/
theorem c4_witness :
    serve [("Alice", Account.mk 100 false), ("Bob", Account.mk 0 false)]
        (LedgerOp.transfer "Alice" "Bob" 150)
      = ⟨[("Alice", Account.mk 100 false), ("Bob", Account.mk 0 false)], [],
         Resp.insufficientFunds⟩ ∧
    (serve [("Alice", Account.mk 100 false), ("Bob", Account.mk 0 false)]
        (LedgerOp.transfer "Alice" "Bob" 150)).table
      = [("Alice", Account.mk 100 false), ("Bob", Account.mk 0 false)] ∧
    (serve [("Alice", Account.mk 100 false), ("Bob", Account.mk 0 false)]
        (LedgerOp.transfer "Alice" "Bob" 150)).recs = [] := by
  have h2 := c4_validation_errors_cause_no_mutation.2
    [("Alice", Account.mk 100 false), ("Bob", Account.mk 0 false)]
    (LedgerOp.transfer "Alice" "Bob" 150) (by decide)
  exact ⟨c4_validation_errors_cause_no_mutation.1
    [("Alice", Account.mk 100 false), ("Bob", Account.mk 0 false)]
    "Alice" "Bob" 150 (Account.mk 100 false) (Account.mk 0 false)
    (by decide) (by decide) (by decide) (by decide) (by decide) rfl (by decide),
   h2.1, h2.2⟩

/-- C5 (code_bug demonstration): the balance field of the /balance response
for a finite account is a JSON number (the JavaScript number stored in the
table), not a decimal string; only the unlimited sentinel is a string. -/
theorem c5_balance_payload_is_json_number :
    balanceRoute [("Alice", Account.mk 100 false)] "Alice" = some (Jv.num 100) ∧
    getBalance [("Bank", Account.mk 0 true)] "Bank" = some (Jv.str "infinite") := by
  decide

end HrnCoins
